import Mathlib

/-!
Shallow embedding of the core license-key engine of the `license-key-shop`
repository: cryptographic signature helpers (`crypto.service.ts`), the key
formatter and encoder (`key-formatter.ts`, `key-encoder.ts`), the key
generator (`key-generator.service.ts`), the license-key service
(`license-keys.service.ts`) and the token-bucket rate limiter
(`rate-limit.service.ts`).  Machine numbers are modelled by `Nat`/`Int`/`Rat`,
JavaScript exceptions by `Except`, the database and the Redis store by
explicit state records.  The external cryptographic primitives (HMAC-SHA256,
ECDSA P-256) are abstract function parameters gathered in `CryptoEnv`.
-/

instance {ε α : Type} [DecidableEq ε] [DecidableEq α] : DecidableEq (Except ε α) := fun x y =>
  match x, y with
  | .ok a, .ok b =>
    if h : a = b then isTrue (by rw [h]) else isFalse (by intro hc; cases hc; exact h rfl)
  | .error a, .error b =>
    if h : a = b then isTrue (by rw [h]) else isFalse (by intro hc; cases hc; exact h rfl)
  | .ok _, .error _ => isFalse (by intro h; cases h)
  | .error _, .ok _ => isFalse (by intro h; cases h)

/-- JavaScript's `string.split(sep)` for a one-character separator, on the
character list: `"".split('.')` is `[""]`, separators at either end produce
empty groups. -/
def splitOnChar (sep : Char) : List Char → List (List Char)
  | [] => [[]]
  | c :: rest =>
    match splitOnChar sep rest with
    | [] => [[]]
    | g :: gs => if c = sep then [] :: g :: gs else (c :: g) :: gs

/-- JavaScript's `string.split(sep)` for a one-character separator. -/
def jsSplit (sep : Char) (s : String) : List String :=
  (splitOnChar sep s.data).map String.mk

/-! ## CryptoService (`crypto.service.ts`) -/

/-- Abstract cryptographic primitives used by `CryptoService`: the HMAC
digest function (deterministic, keyed by the service's secret), the ECDSA
signing function and the ECDSA verification predicate. -/
structure CryptoEnv where
  hmac : String → String
  ecdsaSign : String → String
  ecdsaVerify : String → String → Bool

/-- `constantTimeStringCompare(a, b)` from `crypto.service.ts`: if the
lengths differ return false, otherwise OR together the XOR of the character
codes at each position and compare the accumulator with zero. -/
def constantTimeStringCompare (a b : String) : Bool :=
  if a.length ≠ b.length then
    false
  else
    decide (((a.data.zip b.data).foldl
      (fun r p => r ||| (p.1.toNat ^^^ p.2.toNat)) 0) = 0)

/-- `generateHmac(data)` from `crypto.service.ts`: HMAC-SHA256 digest of
`data` under the service secret, modelled by the abstract `env.hmac`. -/
def generateHmac (env : CryptoEnv) (data : String) : String :=
  env.hmac data

/-- `verifyHmac(data, hmacDigest)` from `crypto.service.ts`: recompute the
digest and compare in constant time. -/
def verifyHmac (env : CryptoEnv) (data hmacDigest : String) : Bool :=
  constantTimeStringCompare (generateHmac env data) hmacDigest

/-- `signCombined(data)` from `crypto.service.ts`: ECDSA signature, then an
HMAC over `data + signature`, joined by a literal dot. -/
def signCombined (env : CryptoEnv) (data : String) : String :=
  let signature := env.ecdsaSign data
  let hmacDigest := generateHmac env (data ++ signature)
  signature ++ "." ++ hmacDigest

/-- The checks `verifyCombined` can perform, in the order performed. -/
inductive CryptoCheck where
  | hmacCheck : CryptoCheck
  | ecdsaCheck : CryptoCheck
deriving DecidableEq, Repr

/-- The first element of the dot-split of a combined signature
(`undefined` is modelled by `""`, which is equally falsy in the source). -/
def combinedSigPart1 (combinedSignature : String) : String :=
  (jsSplit '.' combinedSignature).getD 0 ""

/-- The second element of the dot-split of a combined signature. -/
def combinedSigPart2 (combinedSignature : String) : String :=
  (jsSplit '.' combinedSignature).getD 1 ""

/-- `verifyCombined(data, combinedSignature)` from `crypto.service.ts`,
instrumented with the list of checks performed in order.  The source
destructures `combinedSignature.split('.')` into its first two elements,
rejects if either is falsy, verifies the HMAC over `data + signature`
first, and only then the ECDSA signature. -/
def verifyCombinedT (env : CryptoEnv) (data combinedSignature : String) :
    Bool × List CryptoCheck :=
  let signature := combinedSigPart1 combinedSignature
  let hmacDigest := combinedSigPart2 combinedSignature
  if signature = "" ∨ hmacDigest = "" then
    (false, [])
  else
    let hmacData := data ++ signature
    if ¬ verifyHmac env hmacData hmacDigest then
      (false, [CryptoCheck.hmacCheck])
    else
      (env.ecdsaVerify data signature,
        [CryptoCheck.hmacCheck, CryptoCheck.ecdsaCheck])

/-- `verifyCombined(data, combinedSignature)`: the verdict alone. -/
def verifyCombined (env : CryptoEnv) (data combinedSignature : String) : Bool :=
  (verifyCombinedT env data combinedSignature).1

/-! ## KeyFormatter and KeyEncoder (`key-formatter.ts`, `key-encoder.ts`) -/

/-- A lowercase hexadecimal digit (`[0-9a-f]`), by character code. -/
def isLowerHexDigit (c : Char) : Bool :=
  (48 ≤ c.toNat && c.toNat ≤ 57) || (97 ≤ c.toNat && c.toNat ≤ 102)

/-- A hexadecimal digit of either case, as accepted by Node's
`Buffer.from(string, 'hex')`, with its value. -/
def hexDigitValue (c : Char) : Option Nat :=
  if 48 ≤ c.toNat ∧ c.toNat ≤ 57 then some (c.toNat - 48)
  else if 97 ≤ c.toNat ∧ c.toNat ≤ 102 then some (c.toNat - 87)
  else if 65 ≤ c.toNat ∧ c.toNat ≤ 70 then some (c.toNat - 55)
  else none

/-- Node's `Buffer.from(string, 'hex')`: decode two characters per byte,
truncating at the first invalid pair (or at a trailing lone character). -/
def hexPairsToBytes : List Char → List Nat
  | c1 :: c2 :: rest =>
    match hexDigitValue c1, hexDigitValue c2 with
    | some hi, some lo => (16 * hi + lo) :: hexPairsToBytes rest
    | _, _ => []
  | _ => []

/-- Node's `buffer.toString('hex')` for one byte: two lowercase hex
digits. -/
def byteHexChars (b : Nat) : List Char :=
  [Nat.digitChar (b / 16), Nat.digitChar (b % 16)]

namespace KeyFormatter

/-- `KeyFormatter.format(data)` from `key-formatter.ts`: reject a payload
that is not exactly 16 bytes, hex-encode it, uppercase, and join
`hex.slice(0,4)`, `hex.slice(4,8)`, `hex.slice(8,12)`, `hex.slice(12,16)`
with hyphens.  (The 16-byte payload yields 32 hex characters, but the four
slices cover only the first 16 of them, exactly as in the source.) -/
def format (data : List Nat) : Except String String :=
  if data.length ≠ 16 then
    .error "Key data must be exactly 16 bytes"
  else
    let hex := (data.flatMap byteHexChars).map Char.toUpper
    .ok (String.mk ((hex.take 4) ++ '-' :: (((hex.drop 4).take 4) ++
      '-' :: (((hex.drop 8).take 4) ++ '-' :: ((hex.drop 12).take 4)))))

/-- The normalisation performed by `KeyFormatter.parse`: remove every
hyphen, then lowercase, on the character list. -/
def strippedLowerHex (keyString : String) : List Char :=
  (keyString.data.filter fun c => c ≠ '-').map Char.toLower

/-- `KeyFormatter.parse(keyString)` from `key-formatter.ts`: remove every
hyphen, lowercase, require exactly 32 characters all matching
`^[0-9a-f]{32}$`, then decode hex pairs to bytes. -/
def parse (keyString : String) : Except String (List Nat) :=
  let hex := strippedLowerHex keyString
  if hex.length ≠ 32 then
    .error "Invalid key format: must be 16 hex bytes"
  else if ¬ (hex.all isLowerHexDigit) then
    .error "Invalid key format: must contain only hex characters"
  else
    .ok (hexPairsToBytes hex)

/-- `KeyFormatter.isValid(keyString)` from `key-formatter.ts`: true iff
`parse` does not throw. -/
def isValid (keyString : String) : Bool :=
  match parse keyString with
  | .ok _ => true
  | .error _ => false

end KeyFormatter

/-- The display shape named by the spec: 4 groups of 4 uppercase-hex
characters joined by single hyphens.  Stated from the spec's words, for
comparison with `KeyFormatter.isValid`. -/
def isUpperHexDigit (c : Char) : Bool :=
  (48 ≤ c.toNat && c.toNat ≤ 57) || (65 ≤ c.toNat && c.toNat ≤ 70)

/-- Spec-side predicate: the string is exactly 4 groups of 4 uppercase-hex
characters joined by single hyphens. -/
def specDisplayFormat (s : String) : Bool :=
  let parts := splitOnChar '-' s.data
  parts.length == 4 && parts.all fun p => p.length == 4 && p.all isUpperHexDigit

namespace KeyEncoder

/-- `KeyEncoder.encode(productId)` from `key-encoder.ts`: hex-decode the
first 4 characters of the product id (Node's lenient hex decoding), require
exactly 2 bytes, and append the 14 random bytes (the CSPRNG draw is the
explicit `rnd` argument). -/
def encode (productId : String) (rnd : List Nat) : Except String (List Nat) :=
  let productIdBytes := hexPairsToBytes (productId.data.take 4)
  if productIdBytes.length ≠ 2 then
    .error "Product ID must be at least 4 hex characters"
  else
    .ok (productIdBytes ++ rnd)

end KeyEncoder

/-! ### Basic facts about constant-time comparison -/

theorem nat_lor_eq_zero (a b : Nat) : (a ||| b) = 0 ↔ a = 0 ∧ b = 0 := by
  constructor
  · intro h
    constructor
    · apply Nat.eq_of_testBit_eq
      intro i
      have hb := congrArg (fun x => Nat.testBit x i) h
      simp only [Nat.testBit_lor, Nat.zero_testBit, Bool.or_eq_false_iff] at hb
      simp [hb.1]
    · apply Nat.eq_of_testBit_eq
      intro i
      have hb := congrArg (fun x => Nat.testBit x i) h
      simp only [Nat.testBit_lor, Nat.zero_testBit, Bool.or_eq_false_iff] at hb
      simp [hb.2]
  · rintro ⟨rfl, rfl⟩
    rfl

theorem foldl_or_xor_eq_zero (l : List (Char × Char)) (acc : Nat) :
    (l.foldl (fun r p => r ||| (p.1.toNat ^^^ p.2.toNat)) acc = 0) ↔
      (acc = 0 ∧ ∀ p ∈ l, p.1 = p.2) := by
  induction l generalizing acc with
  | nil => simp
  | cons hd tl ih =>
    simp only [List.foldl_cons, ih, nat_lor_eq_zero, List.mem_cons]
    constructor
    · rintro ⟨⟨hacc, hxor⟩, hall⟩
      have h1 : hd.1.toNat = hd.2.toNat := Nat.xor_eq_zero.mp hxor
      have hhd : hd.1 = hd.2 := by
        have h2 := congrArg Char.ofNat h1
        rwa [Char.ofNat_toNat, Char.ofNat_toNat] at h2
      exact ⟨hacc, fun p hp => hp.elim (fun e => e ▸ hhd) (hall p)⟩
    · rintro ⟨hacc, hall⟩
      exact ⟨⟨hacc, by rw [hall hd (Or.inl rfl), Nat.xor_self]⟩,
        fun p hp => hall p (Or.inr hp)⟩

theorem zip_self_fst_eq_snd (l : List Char) : ∀ p ∈ l.zip l, p.1 = p.2 := by
  induction l with
  | nil => intro p hp; cases hp
  | cons hd tl ih =>
    intro p hp
    rcases List.mem_cons.mp hp with h | h
    · rw [h]
    · exact ih p h

theorem constantTimeStringCompare_iff (a b : String) :
    constantTimeStringCompare a b = true ↔ a = b := by
  unfold constantTimeStringCompare
  by_cases hlen : a.length = b.length
  · simp only [hlen, ne_eq, not_true_eq_false, if_false, decide_eq_true_eq]
    rw [foldl_or_xor_eq_zero]
    simp only [true_and]
    constructor
    · intro hall
      have hdata : a.data = b.data := by
        apply List.ext_get
        · exact hlen
        · intro i h1 h2
          have hmem : (a.data.get ⟨i, h1⟩, b.data.get ⟨i, h2⟩) ∈ a.data.zip b.data := by
            rw [List.mem_iff_get]
            refine ⟨⟨i, ?_⟩, ?_⟩
            · rw [List.length_zip]
              exact lt_min h1 h2
            · rw [List.get_zip]
          exact hall _ hmem
      exact congrArg String.mk hdata
    · rintro rfl
      exact zip_self_fst_eq_snd a.data
  · simp only [ne_eq, hlen, not_false_eq_true, if_true]
    constructor
    · intro h; cases h
    · rintro rfl; exact absurd rfl hlen

/-- Claim C10 -- `verifyHmac(data, digest)` is true exactly when `digest`
equals `generateHmac(data)` character for character, because
`constantTimeStringCompare` decides exact string equality: false whenever
the lengths differ or any character differs, true only on identical
strings. -/
theorem verifyHmac_iff_eq :
    (∀ a b : String, constantTimeStringCompare a b = true ↔ a = b) ∧
    (∀ env : CryptoEnv, ∀ data hmacDigest : String,
      verifyHmac env data hmacDigest = true ↔ hmacDigest = generateHmac env data) := by
  refine ⟨constantTimeStringCompare_iff, fun env data hmacDigest => ?_⟩
  unfold verifyHmac
  rw [constantTimeStringCompare_iff]
  exact eq_comm

/-! ### Claims about `verifyCombined` and the key format -/

/-- Counterexample to claim C5 as stated: `"s.H.x"` splits on the dot into
three parts, so the claim requires `verifyCombined` to return false, yet
with an environment whose HMAC of every input is `"H"` and whose ECDSA
check accepts, `verifyCombined` returns true -- the source destructures
only the first two elements of the split and never checks that there are
exactly two. -/
theorem verifyCombined_three_parts_counterexample :
    (jsSplit '.' "s.H.x").length = 3 ∧
    verifyCombined ⟨fun _ => "H", fun _ => "s", fun _ _ => true⟩ "d" "s.H.x" = true := by
  decide

/-- Claim C5 (amended) -- `verifyCombined(data, combined)` looks only at the
first two components of the dot-split (parts beyond the second are ignored,
so three or more parts are not rejected): it returns false when the first
or second component is missing or empty, and otherwise returns the
conjunction of the HMAC check over `data + signature` and the ECDSA check
over `data`, performing the HMAC check first and skipping the ECDSA check
when the HMAC check fails. -/
theorem verifyCombined_spec (env : CryptoEnv) (data combined : String) :
    (combinedSigPart1 combined = "" ∨ combinedSigPart2 combined = "" →
      verifyCombined env data combined = false ∧
      (verifyCombinedT env data combined).2 = []) ∧
    (combinedSigPart1 combined ≠ "" → combinedSigPart2 combined ≠ "" →
      (verifyCombined env data combined =
        (verifyHmac env (data ++ combinedSigPart1 combined) (combinedSigPart2 combined) &&
          env.ecdsaVerify data (combinedSigPart1 combined))) ∧
      (verifyHmac env (data ++ combinedSigPart1 combined) (combinedSigPart2 combined) = false →
        (verifyCombinedT env data combined).2 = [CryptoCheck.hmacCheck]) ∧
      (verifyHmac env (data ++ combinedSigPart1 combined) (combinedSigPart2 combined) = true →
        (verifyCombinedT env data combined).2 =
          [CryptoCheck.hmacCheck, CryptoCheck.ecdsaCheck])) := by
  by_cases hempty : combinedSigPart1 combined = "" ∨ combinedSigPart2 combined = ""
  · refine ⟨fun _ => ?_, fun h0 h1 => ?_⟩
    · unfold verifyCombined verifyCombinedT
      rw [if_pos hempty]
      exact ⟨rfl, rfl⟩
    · rcases hempty with h | h
      · exact absurd h h0
      · exact absurd h h1
  · refine ⟨fun h => absurd h hempty, fun _ _ => ?_⟩
    unfold verifyCombined verifyCombinedT
    rw [if_neg hempty]
    by_cases hh : verifyHmac env (data ++ combinedSigPart1 combined)
        (combinedSigPart2 combined) = true
    · rw [if_neg (by simp [hh])]
      refine ⟨by simp [hh], fun hc => ?_, fun _ => rfl⟩
      rw [hh] at hc
      cases hc
    · have hh' : verifyHmac env (data ++ combinedSigPart1 combined)
          (combinedSigPart2 combined) = false := by
        simpa using hh
      rw [if_pos (by simp [hh'])]
      refine ⟨by simp [hh'], fun _ => rfl, fun hc => ?_⟩
      rw [hh'] at hc
      cases hc

/-- Witness for C5: on `"s.H"` (exactly two non-empty parts) the amended
theorem applies and evaluates: the verdict is the conjunction of the two
checks, here true. -/
theorem verifyCombined_spec_witness :
    verifyCombined ⟨fun _ => "H", fun _ => "s", fun _ _ => true⟩ "d" "s.H" = true := by
  have h := ((verifyCombined_spec ⟨fun _ => "H", fun _ => "s", fun _ _ => true⟩ "d" "s.H").2
    (by decide) (by decide)).1
  rw [h]
  decide

/-- Counterexample to claim C4 as stated: `"ffffffffffffffffffffffffffffffff"`
is 32 lowercase hex characters with no hyphens, hence not 4 groups of 4
uppercase-hex characters joined by hyphens, yet `KeyFormatter.isValid`
accepts it -- `parse` strips every hyphen and lowercases before checking. -/
theorem keyFormatter_isValid_lowercase_counterexample :
    specDisplayFormat "ffffffffffffffffffffffffffffffff" = false ∧
    KeyFormatter.isValid "ffffffffffffffffffffffffffffffff" = true := by
  decide

/-- Claim C4 (amended) -- `KeyFormatter.isValid(s)` is true exactly when
removing every hyphen from `s` and lowercasing leaves exactly 32 lowercase
hexadecimal characters: so it is false for strings of the wrong stripped
length or containing non-hex characters, but it accepts lowercase hex and
hyphens in arbitrary positions. -/
theorem keyFormatter_isValid_iff (s : String) :
    KeyFormatter.isValid s = true ↔
      ((KeyFormatter.strippedLowerHex s).length = 32 ∧
        (KeyFormatter.strippedLowerHex s).all isLowerHexDigit = true) := by
  unfold KeyFormatter.isValid KeyFormatter.parse
  by_cases hlen : (KeyFormatter.strippedLowerHex s).length = 32
  · rw [if_neg (not_not_intro hlen)]
    by_cases hall : (KeyFormatter.strippedLowerHex s).all isLowerHexDigit = true
    · rw [if_neg (by simp [hall])]
      simp [hlen, hall]
    · rw [if_pos (by simpa using hall)]
      simp [hlen, hall]
  · rw [if_pos hlen]
    simp [hlen]

/-- Claim C9 -- evaluation of the round-trip at the 16-byte buffer
`00 01 ... 0f`: `format` succeeds but produces a string holding only the
first 16 of the 32 hex characters (`hex.slice(0,4)` through
`hex.slice(12,16)` of a 32-character string), so `parse` of the formatted
key fails its 32-character length check instead of returning the input
bytes, and `isValid` rejects every formatted key. -/
theorem keyFormatter_roundTrip_failure :
    KeyFormatter.format [0, 1, 2, 3, 4, 5, 6, 7, 8, 9, 10, 11, 12, 13, 14, 15] =
      .ok "0001-0203-0405-0607" ∧
    KeyFormatter.parse "0001-0203-0405-0607" =
      .error "Invalid key format: must be 16 hex bytes" ∧
    KeyFormatter.isValid "0001-0203-0405-0607" = false := by
  decide

/-! ## LicenseKeysService (`license-keys.service.ts`) -/

/-- The `KeyStatus` enum of the Prisma schema. -/
inductive KeyStatus where
  | AVAILABLE : KeyStatus
  | SOLD : KeyStatus
  | ACTIVE : KeyStatus
  | REVOKED : KeyStatus
  | EXPIRED : KeyStatus
deriving DecidableEq, Repr

/-- The serialized name of a `KeyStatus`, as returned in validation
results. -/
def KeyStatus.toName : KeyStatus → String
  | .AVAILABLE => "AVAILABLE"
  | .SOLD => "SOLD"
  | .ACTIVE => "ACTIVE"
  | .REVOKED => "REVOKED"
  | .EXPIRED => "EXPIRED"

/-- The persisted `LicenseKey` row, restricted to the fields the service
reads and writes. -/
structure LicenseKey where
  id : String
  keyString : String
  signature : String
  productId : String
  status : KeyStatus
  activations : Int
  maxActivations : Int
  expiresAt : Option Int
  revokedAt : Option Int
  revokedReason : Option String
  purchaseId : Option String
deriving DecidableEq, Repr

/-- A `validationLog` row, restricted to the fields `validateKey`
writes. -/
structure ValidationLog where
  licenseKeyId : String
  isValid : Bool
  ipAddress : Option String
  userAgent : Option String
deriving DecidableEq, Repr

/-- The stored state the license-key service manipulates. -/
structure Db where
  keys : List LicenseKey
  logs : List ValidationLog
deriving DecidableEq, Repr

/-- Typed service errors: Nest's `NotFoundException` and
`ConflictException`. -/
inductive SvcError where
  | notFound : SvcError
  | conflict : SvcError
deriving DecidableEq, Repr

/-- `prisma.licenseKey.findUnique({ where: { keyString } })`. -/
def findByKeyString (db : Db) (ks : String) : Option LicenseKey :=
  db.keys.find? fun k => k.keyString == ks

/-- `prisma.licenseKey.findUnique({ where: { id } })`. -/
def findById (db : Db) (keyId : String) : Option LicenseKey :=
  db.keys.find? fun k => k.id == keyId

/-- `prisma.licenseKey.update({ where: { id }, data })`: rewrite the rows
whose id matches. -/
def updateKeyById (db : Db) (keyId : String) (f : LicenseKey → LicenseKey) : Db :=
  { db with keys := db.keys.map fun k => if k.id == keyId then f k else k }

/-- JavaScript's `a || b` for an optional string: `null` and `""` are both
falsy. -/
def jsStringOr (o : Option String) (d : String) : String :=
  match o with
  | some r => if r = "" then d else r
  | none => d

/-- The truthiness-and-comparison test
`licenseKey.expiresAt && licenseKey.expiresAt < new Date()`. -/
def isPastExpiry (expiresAt : Option Int) (now : Int) : Bool :=
  match expiresAt with
  | some t => decide (t < now)
  | none => false

/-- `isValidFormat` of `key-generator.service.ts`: delegates to
`KeyFormatter.isValid`. -/
def isValidFormat (keyString : String) : Bool :=
  KeyFormatter.isValid keyString

/-- The validation result object, restricted to the fields common to every
branch of `validateKey` plus `activationsRemaining`. -/
structure VResult where
  isValid : Bool
  keyString : String
  status : String
  reason : Option String
  activationsRemaining : Option Int
  validatedAt : Int
deriving DecidableEq, Repr

/-- The update applied by the lazy-expiry write of `validateKey`:
`data: { status: EXPIRED }`. -/
def expireFn (k : LicenseKey) : LicenseKey :=
  { k with status := KeyStatus.EXPIRED }

/-- `validateKey(keyString, metadata)` from `license-keys.service.ts`:
format check, lookup, combined-signature check, stored REVOKED and EXPIRED
checks, lazy time-based expiry (a persisted write), activation-quota check,
and on success an appended validation-log row.  `now` stands for every
`new Date()` drawn during the call. -/
def validateKey (env : CryptoEnv) (db : Db) (now : Int) (keyString : String)
    (ip ua : Option String) : VResult × Db :=
  if ¬ isValidFormat keyString then
    ({ isValid := false, keyString, status := "INVALID_FORMAT",
       reason := some "Invalid key format", activationsRemaining := none,
       validatedAt := now }, db)
  else
    match findByKeyString db keyString with
    | none =>
      ({ isValid := false, keyString, status := "NOT_FOUND",
         reason := some "Key not found", activationsRemaining := none,
         validatedAt := now }, db)
    | some licenseKey =>
      if ¬ verifyCombined env keyString licenseKey.signature then
        ({ isValid := false, keyString, status := "INVALID",
           reason := some "Invalid signature", activationsRemaining := none,
           validatedAt := now }, db)
      else if licenseKey.status = KeyStatus.REVOKED then
        ({ isValid := false, keyString, status := "REVOKED",
           reason := some (jsStringOr licenseKey.revokedReason "Key revoked"),
           activationsRemaining := none, validatedAt := now }, db)
      else if licenseKey.status = KeyStatus.EXPIRED then
        ({ isValid := false, keyString, status := "EXPIRED",
           reason := some "Key expired", activationsRemaining := none,
           validatedAt := now }, db)
      else if isPastExpiry licenseKey.expiresAt now then
        ({ isValid := false, keyString, status := "EXPIRED",
           reason := some "Key expired", activationsRemaining := none,
           validatedAt := now }, updateKeyById db licenseKey.id expireFn)
      else if licenseKey.maxActivations - licenseKey.activations ≤ 0 then
        ({ isValid := false, keyString, status := "MAX_ACTIVATIONS_REACHED",
           reason := some "Maximum activations reached",
           activationsRemaining := some 0, validatedAt := now }, db)
      else
        ({ isValid := true, keyString, status := licenseKey.status.toName,
           reason := none,
           activationsRemaining := some (licenseKey.maxActivations - licenseKey.activations),
           validatedAt := now },
         { db with logs := db.logs ++
            [{ licenseKeyId := licenseKey.id, isValid := true,
               ipAddress := ip, userAgent := ua }] })

/-- The update applied by `revokeKey`:
`data: { status: REVOKED, revokedAt, revokedReason }`. -/
def revokeFn (now : Int) (reason : String) (k : LicenseKey) : LicenseKey :=
  { k with
    status := KeyStatus.REVOKED
    revokedAt := some now
    revokedReason := some reason }

/-- `revokeKey(keyString, reason, notes)` from `license-keys.service.ts`:
not-found and already-revoked guards, then the revocation write.  Returns
the new state and the updated row. -/
def revokeKey (db : Db) (now : Int) (keyString reason : String) :
    Except SvcError (Db × LicenseKey) :=
  match findByKeyString db keyString with
  | none => .error SvcError.notFound
  | some licenseKey =>
    if licenseKey.status = KeyStatus.REVOKED then
      .error SvcError.conflict
    else
      .ok (updateKeyById db licenseKey.id (revokeFn now reason),
        revokeFn now reason licenseKey)

/-- The update applied by `markAsSold`:
`data: { status: SOLD, purchaseId }`. -/
def soldFn (purchaseId : String) (k : LicenseKey) : LicenseKey :=
  { k with status := KeyStatus.SOLD, purchaseId := some purchaseId }

/-- `markAsSold(keyId, purchaseId)` from `license-keys.service.ts`: a bare
`prisma.licenseKey.update` (which throws not-found when no row matches),
with no status check whatsoever. -/
def markAsSold (db : Db) (keyId purchaseId : String) :
    Except SvcError (Db × LicenseKey) :=
  match findById db keyId with
  | none => .error SvcError.notFound
  | some key => .ok (updateKeyById db keyId (soldFn purchaseId), soldFn purchaseId key)

/-- The update applied by `incrementActivation`:
`data: { activations: { increment: 1 }, status: ACTIVE }`. -/
def incrFn (k : LicenseKey) : LicenseKey :=
  { k with activations := k.activations + 1, status := KeyStatus.ACTIVE }

/-- `incrementActivation(keyId)` from `license-keys.service.ts`: not-found
guard, quota guard (`activations >= maxActivations`), then the atomic
increment-and-activate write. -/
def incrementActivation (db : Db) (keyId : String) :
    Except SvcError (Db × LicenseKey) :=
  match findById db keyId with
  | none => .error SvcError.notFound
  | some key =>
    if key.maxActivations ≤ key.activations then
      .error SvcError.conflict
    else
      .ok (updateKeyById db keyId incrFn, incrFn key)

/-! ### Helper lemmas about the stored state -/

theorem find?_map_of_pred_invariant {α : Type} (l : List α) (p : α → Bool)
    (g : α → α) (hp : ∀ x, p (g x) = p x) :
    (l.map g).find? p = (l.find? p).map g := by
  induction l with
  | nil => rfl
  | cons hd tl ih =>
    by_cases h : p hd = true
    · rw [List.map_cons, List.find?_cons_of_pos _ (by rw [hp]; exact h),
        List.find?_cons_of_pos _ h]
      rfl
    · rw [List.map_cons, List.find?_cons_of_neg _ (by rw [hp]; simpa using h),
        List.find?_cons_of_neg _ (by simpa using h), ih]

theorem findById_updateKeyById (db : Db) (keyId : String)
    (g : LicenseKey → LicenseKey) (hg : ∀ k, (g k).id = k.id) :
    findById (updateKeyById db keyId g) keyId =
      (findById db keyId).map fun k => if k.id == keyId then g k else k := by
  unfold findById updateKeyById
  apply find?_map_of_pred_invariant
  intro x
  by_cases h : (x.id == keyId) = true
  · rw [if_pos h, hg x]
  · rw [if_neg h]

theorem member_of_nodup_same_id (db : Db)
    (hNodup : (db.keys.map LicenseKey.id).Nodup)
    (j k : LicenseKey) (hj : j ∈ db.keys) (hk : k ∈ db.keys)
    (hid : j.id = k.id) : j = k :=
  List.inj_on_of_nodup_map hNodup hj hk hid

theorem findById_mem (db : Db) (keyId : String) (k : LicenseKey)
    (h : findById db keyId = some k) : k ∈ db.keys := by
  unfold findById at h
  exact List.mem_of_find?_eq_some h

theorem findById_id (db : Db) (keyId : String) (k : LicenseKey)
    (h : findById db keyId = some k) : (k.id == keyId) = true := by
  unfold findById at h
  exact List.find?_some (p := fun j : LicenseKey => j.id == keyId) h

theorem findByKeyString_mem (db : Db) (ks : String) (k : LicenseKey)
    (h : findByKeyString db ks = some k) : k ∈ db.keys := by
  unfold findByKeyString at h
  exact List.mem_of_find?_eq_some h

theorem findByKeyString_keyString (db : Db) (ks : String) (k : LicenseKey)
    (h : findByKeyString db ks = some k) : (k.keyString == ks) = true := by
  unfold findByKeyString at h
  exact List.find?_some (p := fun j : LicenseKey => j.keyString == ks) h

theorem map_activations_updateKeyById (db : Db) (keyId : String)
    (g : LicenseKey → LicenseKey) (hg : ∀ k, (g k).activations = k.activations) :
    (updateKeyById db keyId g).keys.map LicenseKey.activations =
      db.keys.map LicenseKey.activations := by
  simp only [updateKeyById, List.map_map]
  apply List.map_congr_left
  intro a _
  by_cases hid : (a.id == keyId) = true
  · simp only [Function.comp_apply, if_pos hid, hg]
  · simp only [Function.comp_apply, if_neg hid]

/-- Claim C2 -- `incrementActivation` preserves the invariant
`activations <= maxActivations`: it fails not-found when the key is absent;
fails with a conflict when `activations >= maxActivations`, leaving the
state untouched; otherwise increments `activations` by exactly 1 and sets
the status to ACTIVE, so a state satisfying the invariant still satisfies
it; and `validateKey` never changes any key's `activations`. -/
theorem incrementActivation_spec (db : Db) (keyId : String) :
    (findById db keyId = none →
      incrementActivation db keyId = .error SvcError.notFound) ∧
    (∀ k, findById db keyId = some k → k.maxActivations ≤ k.activations →
      incrementActivation db keyId = .error SvcError.conflict) ∧
    (∀ k, findById db keyId = some k → k.activations < k.maxActivations →
      incrementActivation db keyId = .ok (updateKeyById db keyId incrFn, incrFn k) ∧
      (incrFn k).activations = k.activations + 1 ∧
      (incrFn k).status = KeyStatus.ACTIVE ∧
      findById (updateKeyById db keyId incrFn) keyId = some (incrFn k) ∧
      ((db.keys.map LicenseKey.id).Nodup →
        (∀ j ∈ db.keys, j.activations ≤ j.maxActivations) →
        ∀ j ∈ (updateKeyById db keyId incrFn).keys,
          j.activations ≤ j.maxActivations)) ∧
    (∀ env now ks ip ua,
      ((validateKey env db now ks ip ua).2).keys.map LicenseKey.activations =
        db.keys.map LicenseKey.activations) := by
  refine ⟨?_, ?_, ?_, ?_⟩
  · intro h
    unfold incrementActivation
    rw [h]
  · intro k hk hle
    unfold incrementActivation
    rw [hk]
    simp only [if_pos hle]
  · intro k hk hlt
    have hcond : ¬ (k.maxActivations ≤ k.activations) := not_le.mpr hlt
    refine ⟨?_, rfl, rfl, ?_, ?_⟩
    · unfold incrementActivation
      rw [hk]
      simp only [if_neg hcond]
    · rw [findById_updateKeyById db keyId incrFn fun _ => rfl, hk]
      have hpk : k.id = keyId := beq_iff_eq.mp (findById_id db keyId k hk)
      simp [hpk]
    · intro hNodup hinv j hj
      simp only [updateKeyById, List.mem_map] at hj
      rcases hj with ⟨a, ha, rfl⟩
      by_cases hid : (a.id == keyId) = true
      · have hkmem : k ∈ db.keys := findById_mem db keyId k hk
        have hpk : (k.id == keyId) = true := findById_id db keyId k hk
        have hak : a = k := member_of_nodup_same_id db hNodup a k ha hkmem
          (by rw [beq_iff_eq.mp hid, beq_iff_eq.mp hpk])
        subst hak
        rw [if_pos hid]
        show a.activations + 1 ≤ a.maxActivations
        omega
      · rw [if_neg hid]
        exact hinv a ha
  · intro env now ks ip ua
    unfold validateKey
    repeat' split
    all_goals first
      | rfl
      | exact map_activations_updateKeyById db _ expireFn fun _ => rfl

/-- A concrete available key used to instantiate C2. -/
def keyC2 : LicenseKey :=
  ⟨"k1", "AAAA", "sig", "p1", KeyStatus.AVAILABLE, 0, 2, none, none, none, none⟩

/-- A one-key state used to instantiate C2. -/
def dbC2 : Db := ⟨[keyC2], []⟩

/-- Witness for C2: on a concrete state holding one available key with
quota left, the increment branch of the theorem applies and the write is
the expected one. -/
theorem incrementActivation_spec_witness :
    findById dbC2 "k1" = some keyC2 ∧
    keyC2.activations < keyC2.maxActivations ∧
    incrementActivation dbC2 "k1" = .ok (updateKeyById dbC2 "k1" incrFn, incrFn keyC2) :=
  ⟨by decide, by decide,
    ((incrementActivation_spec dbC2 "k1").2.2.1 keyC2 (by decide) (by decide)).1⟩

/-- Claim C3 -- `validateKey` stamps `validatedAt = now` on every branch,
mutates the stored state only on the success branch (one appended
validation-log row) and on the lazy-expiry branch (the found key's status
set to EXPIRED, logs untouched), and leaves the state unchanged on every
other branch (INVALID_FORMAT, NOT_FOUND, INVALID signature, stored
REVOKED, stored EXPIRED, MAX_ACTIVATIONS_REACHED). -/
theorem validateKey_spec (env : CryptoEnv) (db : Db) (now : Int) (ks : String)
    (ip ua : Option String) :
    ((validateKey env db now ks ip ua).1.validatedAt = now) ∧
    (isValidFormat ks = false →
      (validateKey env db now ks ip ua).2 = db ∧
      (validateKey env db now ks ip ua).1.status = "INVALID_FORMAT") ∧
    (isValidFormat ks = true → findByKeyString db ks = none →
      (validateKey env db now ks ip ua).2 = db ∧
      (validateKey env db now ks ip ua).1.status = "NOT_FOUND") ∧
    (∀ k, isValidFormat ks = true → findByKeyString db ks = some k →
      verifyCombined env ks k.signature = false →
      (validateKey env db now ks ip ua).2 = db ∧
      (validateKey env db now ks ip ua).1.status = "INVALID") ∧
    (∀ k, isValidFormat ks = true → findByKeyString db ks = some k →
      verifyCombined env ks k.signature = true →
      k.status = KeyStatus.REVOKED →
      (validateKey env db now ks ip ua).2 = db ∧
      (validateKey env db now ks ip ua).1.status = "REVOKED") ∧
    (∀ k, isValidFormat ks = true → findByKeyString db ks = some k →
      verifyCombined env ks k.signature = true →
      k.status = KeyStatus.EXPIRED →
      (validateKey env db now ks ip ua).2 = db ∧
      (validateKey env db now ks ip ua).1.status = "EXPIRED") ∧
    (∀ k, isValidFormat ks = true → findByKeyString db ks = some k →
      verifyCombined env ks k.signature = true →
      k.status ≠ KeyStatus.REVOKED → k.status ≠ KeyStatus.EXPIRED →
      isPastExpiry k.expiresAt now = true →
      (validateKey env db now ks ip ua).2 = updateKeyById db k.id expireFn ∧
      ((validateKey env db now ks ip ua).2).logs = db.logs ∧
      (validateKey env db now ks ip ua).1.status = "EXPIRED") ∧
    (∀ k, isValidFormat ks = true → findByKeyString db ks = some k →
      verifyCombined env ks k.signature = true →
      k.status ≠ KeyStatus.REVOKED → k.status ≠ KeyStatus.EXPIRED →
      isPastExpiry k.expiresAt now = false →
      k.maxActivations - k.activations ≤ 0 →
      (validateKey env db now ks ip ua).2 = db ∧
      (validateKey env db now ks ip ua).1.status = "MAX_ACTIVATIONS_REACHED") ∧
    (∀ k, isValidFormat ks = true → findByKeyString db ks = some k →
      verifyCombined env ks k.signature = true →
      k.status ≠ KeyStatus.REVOKED → k.status ≠ KeyStatus.EXPIRED →
      isPastExpiry k.expiresAt now = false →
      ¬ (k.maxActivations - k.activations ≤ 0) →
      (validateKey env db now ks ip ua).2 =
        { db with logs := db.logs ++
          [{ licenseKeyId := k.id, isValid := true, ipAddress := ip, userAgent := ua }] } ∧
      (validateKey env db now ks ip ua).1.isValid = true) := by
  refine ⟨?_, ?_, ?_, ?_, ?_, ?_, ?_, ?_, ?_⟩
  · unfold validateKey
    repeat' split
    all_goals rfl
  · intro hfmt
    unfold validateKey
    simp [hfmt]
  · intro hfmt hfind
    unfold validateKey
    simp [hfmt, hfind]
  · intro k hfmt hfind hsig
    unfold validateKey
    simp [hfmt, hfind, hsig]
  · intro k hfmt hfind hsig hrev
    unfold validateKey
    simp [hfmt, hfind, hsig, hrev]
  · intro k hfmt hfind hsig hexp
    unfold validateKey
    by_cases hrev : k.status = KeyStatus.REVOKED
    · rw [hexp] at hrev
      cases hrev
    · simp [hfmt, hfind, hsig, hrev, hexp]
  · intro k hfmt hfind hsig hrev hexp hpast
    have h2 : (validateKey env db now ks ip ua).2 = updateKeyById db k.id expireFn := by
      unfold validateKey
      simp [hfmt, hfind, hsig, hrev, hexp, hpast]
    refine ⟨h2, ?_, ?_⟩
    · rw [h2]
      rfl
    · unfold validateKey
      simp [hfmt, hfind, hsig, hrev, hexp, hpast]
  · intro k hfmt hfind hsig hrev hexp hpast hquota
    unfold validateKey
    simp [hfmt, hfind, hsig, hrev, hexp, hpast, hquota]
  · intro k hfmt hfind hsig hrev hexp hpast hquota
    unfold validateKey
    simp [hfmt, hfind, hsig, hrev, hexp, hpast, hquota]

/-- Witness for C3: on the empty state and the badly formatted key string
`"x"`, the INVALID_FORMAT branch of the theorem applies: no mutation and
the expected verdict. -/
theorem validateKey_spec_witness :
    isValidFormat "x" = false ∧
    (validateKey ⟨fun _ => "H", fun _ => "s", fun _ _ => true⟩ ⟨[], []⟩ 7 "x" none none).2 =
      ⟨[], []⟩ ∧
    (validateKey ⟨fun _ => "H", fun _ => "s", fun _ _ => true⟩ ⟨[], []⟩ 7 "x" none none).1.status =
      "INVALID_FORMAT" :=
  ⟨by decide,
    ((validateKey_spec ⟨fun _ => "H", fun _ => "s", fun _ _ => true⟩ ⟨[], []⟩ 7 "x"
      none none).2.1 (by decide)).1,
    ((validateKey_spec ⟨fun _ => "H", fun _ => "s", fun _ _ => true⟩ ⟨[], []⟩ 7 "x"
      none none).2.1 (by decide)).2⟩

/-- A concrete revoked key used for C1. -/
def keyRevoked : LicenseKey :=
  ⟨"k1", "AAAA", "sig", "p1", KeyStatus.REVOKED, 0, 3, none, some 5, some "FRAUD", none⟩

/-- A concrete one-key state whose only key is revoked, used for C1. -/
def dbRevoked : Db := ⟨[keyRevoked], []⟩

/-- Counterexample to claim C1 as stated: `markAsSold` performs a bare
update with no status check, so on a state whose only key is REVOKED it
moves that key to SOLD -- REVOKED is not terminal under `markAsSold`. -/
theorem markAsSold_unrevokes_counterexample :
    (findById dbRevoked "k1").map LicenseKey.status = some KeyStatus.REVOKED ∧
    (markAsSold dbRevoked "k1" "p9").map
        (fun r => (findById r.1 "k1").map LicenseKey.status) =
      .ok (some KeyStatus.SOLD) := by
  decide

/-- Claim C1 (amended) -- `validateKey` never changes a stored REVOKED or
EXPIRED key (such a row survives every validation verbatim), and
`revokeKey` on an already-REVOKED key fails with a conflict error; but the
other operations do not treat these statuses as terminal: `markAsSold`
unconditionally sets any existing key to SOLD, `incrementActivation` sets
any existing key with remaining quota to ACTIVE regardless of its status,
and `revokeKey` moves an EXPIRED key to REVOKED. -/
theorem terminalStatus_spec (env : CryptoEnv) (db : Db) (now : Int)
    (hNodup : (db.keys.map LicenseKey.id).Nodup) :
    (∀ ks ip ua k, k ∈ db.keys →
      k.status = KeyStatus.REVOKED ∨ k.status = KeyStatus.EXPIRED →
      k ∈ ((validateKey env db now ks ip ua).2).keys) ∧
    (∀ ks reason k, findByKeyString db ks = some k →
      k.status = KeyStatus.REVOKED →
      revokeKey db now ks reason = .error SvcError.conflict) ∧
    (∀ keyId pid k, findById db keyId = some k →
      markAsSold db keyId pid = .ok (updateKeyById db keyId (soldFn pid), soldFn pid k) ∧
      (soldFn pid k).status = KeyStatus.SOLD) ∧
    (∀ keyId k, findById db keyId = some k →
      k.activations < k.maxActivations →
      incrementActivation db keyId = .ok (updateKeyById db keyId incrFn, incrFn k) ∧
      (incrFn k).status = KeyStatus.ACTIVE) ∧
    (∀ ks reason k, findByKeyString db ks = some k →
      k.status = KeyStatus.EXPIRED →
      revokeKey db now ks reason =
        .ok (updateKeyById db k.id (revokeFn now reason), revokeFn now reason k) ∧
      (revokeFn now reason k).status = KeyStatus.REVOKED) := by
  refine ⟨?_, ?_, ?_, ?_, ?_⟩
  · intro ks ip ua k hk hstat
    unfold validateKey
    by_cases hfmt : isValidFormat ks = true
    · simp only [hfmt, not_true_eq_false, if_false]
      cases hfind : findByKeyString db ks with
      | none => exact hk
      | some fk =>
        by_cases hsig : verifyCombined env ks fk.signature = true
        · by_cases hrev : fk.status = KeyStatus.REVOKED
          · simp [hsig, hrev]
            exact hk
          · by_cases hexp : fk.status = KeyStatus.EXPIRED
            · simp [hsig, hrev, hexp]
              exact hk
            · by_cases hpast : isPastExpiry fk.expiresAt now = true
              · simp only [hsig, not_true_eq_false, if_false, if_neg hrev, if_neg hexp,
                  hpast, if_true]
                simp only [updateKeyById, List.mem_map]
                refine ⟨k, hk, ?_⟩
                by_cases hid : (k.id == fk.id) = true
                · have hfkmem : fk ∈ db.keys := findByKeyString_mem db ks fk hfind
                  have hkfk : k = fk := member_of_nodup_same_id db hNodup k fk hk hfkmem
                    (beq_iff_eq.mp hid)
                  rcases hstat with h | h <;> rw [hkfk] at h
                  · exact absurd h hrev
                  · exact absurd h hexp
                · rw [if_neg hid]
              · by_cases hquota : fk.maxActivations - fk.activations ≤ 0
                · simp [hsig, hrev, hexp, hpast, hquota]
                  exact hk
                · simp [hsig, hrev, hexp, hpast, hquota]
                  exact hk
        · simp [hsig]
          exact hk
    · simp [hfmt]
      exact hk
  · intro ks reason k hfind hrev
    unfold revokeKey
    rw [hfind]
    simp [hrev]
  · intro keyId pid k hfind
    refine ⟨?_, rfl⟩
    unfold markAsSold
    rw [hfind]
  · intro keyId k hfind hlt
    refine ⟨?_, rfl⟩
    unfold incrementActivation
    rw [hfind]
    simp only [if_neg (not_le.mpr hlt)]
  · intro ks reason k hfind hexp
    refine ⟨?_, rfl⟩
    unfold revokeKey
    rw [hfind]
    have : k.status ≠ KeyStatus.REVOKED := by
      rw [hexp]
      intro h
      cases h
    simp [this]

/-- Witness for C1: on the concrete revoked-key state, the amended theorem
applies: `revokeKey` on the revoked key reports the conflict. -/
theorem terminalStatus_spec_witness :
    (dbRevoked.keys.map LicenseKey.id).Nodup ∧
    findByKeyString dbRevoked "AAAA" = some keyRevoked ∧
    keyRevoked.status = KeyStatus.REVOKED ∧
    revokeKey dbRevoked 9 "AAAA" "FRAUD" = .error SvcError.conflict :=
  ⟨by decide, by decide, by decide,
    (terminalStatus_spec ⟨fun _ => "H", fun _ => "s", fun _ _ => true⟩ dbRevoked 9
      (by decide)).2.1 "AAAA" "FRAUD" keyRevoked (by decide) (by decide)⟩

/-! ## RateLimitService (`rate-limit.service.ts`, validation module) -/

/-- A Redis token bucket: `{ tokens, lastRefill }`, both stored as number
strings. -/
structure RlBucket where
  tokens : Rat
  lastRefill : Rat
deriving DecidableEq, Repr

/-- The Redis state seen by the rate limiter: the buckets hash plus flags
saying which of the three store calls (`hgetall`, `hmset`, `expire`) throw
-- all true models an unreachable store. -/
structure RlState where
  buckets : List (String × RlBucket)
  hgetallFail : Bool
  hmsetFail : Bool
  expireFail : Bool
deriving DecidableEq, Repr

/-- Write a bucket under a key (`redis.hmset`). -/
def rlWrite (st : RlState) (key : String) (b : RlBucket) : RlState :=
  { st with buckets := (key, b) :: st.buckets.filter fun p => p.1 ≠ key }

/-- The result of `checkRateLimit`: `{ allowed, remaining, resetAt }`. -/
structure RlResult where
  allowed : Bool
  remaining : Rat
  resetAt : Rat
deriving DecidableEq, Repr

/-- The body of the `try` block of `checkRateLimit(apiKeyId, limit)` from
`rate-limit.service.ts`, with `now = Date.now()` in milliseconds: look the
bucket up; on a missing bucket initialise `tokens = limit - 1`,
`lastRefill = now` and allow; otherwise refill
`min(limit, tokens + elapsedSeconds * limit / 3600)` and either consume one
token (persisting `lastRefill = now`) or reject with no write.  A failing
store call surfaces as `Except.error` carrying the state at the failure
point. -/
def checkRateLimitCore (st : RlState) (apiKeyId : String) (limit : Rat)
    (now : Rat) : Except RlState (RlResult × RlState) :=
  let key := "rate_limit:" ++ apiKeyId
  if st.hgetallFail then .error st
  else
    match st.buckets.lookup key with
    | none =>
      let tokens := limit - 1
      if st.hmsetFail then .error st
      else
        let st1 := rlWrite st key ⟨tokens, now⟩
        if st.expireFail then .error st1
        else .ok (⟨true, tokens, now + 3600000⟩, st1)
    | some bucket =>
      let elapsed := (now - bucket.lastRefill) / 1000
      let newTokens := min limit (bucket.tokens + elapsed * (limit / 3600))
      if 1 ≤ newTokens then
        if st.hmsetFail then .error st
        else .ok (⟨true, ⌊newTokens - 1⌋, now + 3600000⟩,
          rlWrite st key ⟨newTokens - 1, now⟩)
      else .ok (⟨false, 0, bucket.lastRefill + 3600000⟩, st)

/-- `checkRateLimit(apiKeyId, limit)` from `rate-limit.service.ts`: the
`try`/`catch` wrapper -- on any store failure, fail open with
`allowed = true` and `remaining = limit`. -/
def checkRateLimit (st : RlState) (apiKeyId : String) (limit : Rat)
    (now : Rat) : RlResult × RlState :=
  match checkRateLimitCore st apiKeyId limit now with
  | .ok r => r
  | .error stErr => (⟨true, limit, now + 3600000⟩, stErr)

/-- Claim C6 -- token-bucket semantics of `checkRateLimit` (with the store
reachable): a first-ever request stores `tokens = limit - 1`,
`lastRefill = now` and allows; a subsequent request computes
`refilled = min(limit, storedTokens + elapsedSeconds * limit / 3600)`; when
`refilled >= 1` it stores `tokens = refilled - 1`, `lastRefill = now` and
allows, otherwise it rejects with `remaining = 0` and writes nothing, so
the stored `lastRefill` is unchanged. -/
theorem checkRateLimit_spec (st : RlState) (apiKeyId : String) (limit now : Rat)
    (hg : st.hgetallFail = false) (hm : st.hmsetFail = false)
    (he : st.expireFail = false) :
    (st.buckets.lookup ("rate_limit:" ++ apiKeyId) = none →
      checkRateLimit st apiKeyId limit now =
        (⟨true, limit - 1, now + 3600000⟩,
          rlWrite st ("rate_limit:" ++ apiKeyId) ⟨limit - 1, now⟩)) ∧
    (∀ b, st.buckets.lookup ("rate_limit:" ++ apiKeyId) = some b →
      (1 ≤ min limit (b.tokens + ((now - b.lastRefill) / 1000) * (limit / 3600)) →
        checkRateLimit st apiKeyId limit now =
          (⟨true, ⌊min limit (b.tokens + ((now - b.lastRefill) / 1000) * (limit / 3600)) - 1⌋,
            now + 3600000⟩,
            rlWrite st ("rate_limit:" ++ apiKeyId)
              ⟨min limit (b.tokens + ((now - b.lastRefill) / 1000) * (limit / 3600)) - 1, now⟩)) ∧
      (¬ 1 ≤ min limit (b.tokens + ((now - b.lastRefill) / 1000) * (limit / 3600)) →
        checkRateLimit st apiKeyId limit now =
          (⟨false, 0, b.lastRefill + 3600000⟩, st))) := by
  constructor
  · intro hnone
    unfold checkRateLimit checkRateLimitCore
    rw [hg, hm, he]
    simp [hnone]
  · intro b hsome
    constructor
    · intro hge
      unfold checkRateLimit checkRateLimitCore
      rw [hg, hm]
      simp [hsome, hge]
    · intro hlt
      unfold checkRateLimit checkRateLimitCore
      rw [hg]
      simp [hsome, hlt]

/-- Witness for C6: a first request on the empty store with `limit = 10`
at `now = 0` allows and stores 9 tokens. -/
theorem checkRateLimit_spec_witness :
    (RlState.mk [] false false false).buckets.lookup ("rate_limit:" ++ "a") = none ∧
    checkRateLimit ⟨[], false, false, false⟩ "a" 10 0 =
      (⟨true, 9, 3600000⟩, rlWrite ⟨[], false, false, false⟩ ("rate_limit:" ++ "a") ⟨9, 0⟩) := by
  refine ⟨by decide, ?_⟩
  have h := (checkRateLimit_spec ⟨[], false, false, false⟩ "a" 10 0 rfl rfl rfl).1 (by decide)
  rw [h]
  norm_num

/-- Claim C7 -- fail-open: whenever any store call inside `checkRateLimit`
throws (the core computation surfaces an error), the wrapper returns
`allowed = true` instead of propagating the error or denying; in
particular an unreachable store (the first call, `hgetall`, throws) always
yields `allowed = true`, for every identifier and limit. -/
theorem checkRateLimit_failOpen (st : RlState) (apiKeyId : String)
    (limit now : Rat) :
    (∀ stErr, checkRateLimitCore st apiKeyId limit now = .error stErr →
      (checkRateLimit st apiKeyId limit now).1.allowed = true ∧
      (checkRateLimit st apiKeyId limit now).1.remaining = limit) ∧
    (st.hgetallFail = true →
      checkRateLimitCore st apiKeyId limit now = .error st ∧
      (checkRateLimit st apiKeyId limit now).1.allowed = true) := by
  constructor
  · intro stErr herr
    unfold checkRateLimit
    rw [herr]
    exact ⟨rfl, rfl⟩
  · intro hfail
    have hcore : checkRateLimitCore st apiKeyId limit now = .error st := by
      unfold checkRateLimitCore
      rw [hfail]
      rfl
    refine ⟨hcore, ?_⟩
    unfold checkRateLimit
    rw [hcore]

/-- Witness for C7: with every store call failing, the request is still
allowed. -/
theorem checkRateLimit_failOpen_witness :
    checkRateLimitCore ⟨[], true, true, true⟩ "a" 10 0 = .error ⟨[], true, true, true⟩ ∧
    (checkRateLimit ⟨[], true, true, true⟩ "a" 10 0).1.allowed = true :=
  (checkRateLimit_failOpen ⟨[], true, true, true⟩ "a" 10 0).2 rfl

/-! ## KeyGeneratorService (`key-generator.service.ts`) -/

/-- `generateKey(productId)` from `key-generator.service.ts`:
`KeyEncoder.encode` (the 14-byte CSPRNG draw is the explicit `rnd`
argument), `KeyFormatter.format`, `signCombined`; any underlying failure is
wrapped as the generation error. -/
def generateKey (env : CryptoEnv) (productId : String) (rnd : List Nat) :
    Except String (String × String) :=
  match KeyEncoder.encode productId rnd with
  | .error _ => .error "Key generation failed"
  | .ok encoded =>
    match KeyFormatter.format encoded with
    | .error _ => .error "Key generation failed"
    | .ok keyString => .ok (keyString, signCombined env keyString)

/-- The generation loop of `generateKeys`: `draws` counts the CSPRNG draws
consumed so far (the source's `i--` retry consumes a fresh draw without
filling a slot), `remaining` the slots still to fill, `seen` the in-batch
seen-set and `acc` the keys produced so far (newest first).  The source
loop has no bound; `fuel` bounds the embedding, and exhausting it is
reported as a distinct error. -/
def generateKeysGo (env : CryptoEnv) (productId : String) (rng : Nat → List Nat) :
    Nat → Nat → Nat → List String → List (String × String) →
    Except String (List (String × String))
  | _, _, 0, _, acc => .ok acc.reverse
  | 0, _, _ + 1, _, _ => .error "generation fuel exhausted"
  | fuel + 1, draws, remaining + 1, seen, acc =>
    match generateKey env productId (rng draws) with
    | .error e => .error e
    | .ok key =>
      if key.1 ∈ seen then
        generateKeysGo env productId rng fuel (draws + 1) (remaining + 1) seen acc
      else
        generateKeysGo env productId rng fuel (draws + 1) remaining
          (key.1 :: seen) (key :: acc)

/-- `generateKeys(productId, count)` from `key-generator.service.ts`:
reject a count outside `[1, 10000]`, then run the collision-checking
loop. -/
def generateKeys (env : CryptoEnv) (productId : String) (rng : Nat → List Nat)
    (count : Int) (fuel : Nat) : Except String (List (String × String)) :=
  if count ≤ 0 ∨ 10000 < count then
    .error "Count must be between 1 and 10000"
  else
    generateKeysGo env productId rng fuel 0 count.toNat [] []

theorem generateKeysGo_ok_shape (env : CryptoEnv) (productId : String)
    (rng : Nat → List Nat) :
    ∀ fuel draws remaining seen acc l,
      acc.map Prod.fst = seen → seen.Nodup →
      generateKeysGo env productId rng fuel draws remaining seen acc = .ok l →
      l.length = acc.length + remaining ∧ (l.map Prod.fst).Nodup := by
  intro fuel
  induction fuel with
  | zero =>
    intro draws remaining seen acc l hacc hnd hok
    cases remaining with
    | zero =>
      cases hok
      constructor
      · simp
      · rw [List.map_reverse]
        exact List.nodup_reverse.mpr (by rw [hacc]; exact hnd)
    | succ r => cases hok
  | succ fuel ih =>
    intro draws remaining seen acc l hacc hnd hok
    cases remaining with
    | zero =>
      cases hok
      constructor
      · simp
      · rw [List.map_reverse]
        exact List.nodup_reverse.mpr (by rw [hacc]; exact hnd)
    | succ r =>
      unfold generateKeysGo at hok
      cases hgen : generateKey env productId (rng draws) with
      | error e =>
        simp only [hgen] at hok
        cases hok
      | ok key =>
        simp only [hgen] at hok
        by_cases hmem : key.1 ∈ seen
        · rw [if_pos hmem] at hok
          exact ih (draws + 1) (r + 1) seen acc l hacc hnd hok
        · rw [if_neg hmem] at hok
          have := ih (draws + 1) r (key.1 :: seen) (key :: acc) l
            (by rw [List.map_cons, hacc]) (List.nodup_cons.mpr ⟨hmem, hnd⟩) hok
          rcases this with ⟨hlen, hnl⟩
          exact ⟨by rw [hlen, List.length_cons]; omega, hnl⟩

theorem generateKeysGo_success (env : CryptoEnv) (productId : String)
    (rng : Nat → List Nat) (gk : Nat → String × String)
    (hgen : ∀ d, generateKey env productId (rng d) = .ok (gk d))
    (hinj : ∀ d d', (gk d).1 = (gk d').1 → d = d') :
    ∀ remaining fuel draws seen acc,
      remaining ≤ fuel →
      (∀ s ∈ seen, ∃ d, d < draws ∧ (gk d).1 = s) →
      ∃ l, generateKeysGo env productId rng fuel draws remaining seen acc = .ok l := by
  intro remaining
  induction remaining with
  | zero =>
    intro fuel draws seen acc _ _
    cases fuel with
    | zero => exact ⟨acc.reverse, rfl⟩
    | succ f => exact ⟨acc.reverse, rfl⟩
  | succ r ih =>
    intro fuel draws seen acc hfuel hseen
    cases fuel with
    | zero => omega
    | succ f =>
      have hmem : (gk draws).1 ∉ seen := by
        intro hm
        rcases hseen _ hm with ⟨d, hd, he⟩
        have := hinj d draws he
        omega
      have hrec := ih f (draws + 1) ((gk draws).1 :: seen) (gk draws :: acc)
        (by omega)
        (by
          intro s hs
          rcases List.mem_cons.mp hs with h | h
          · exact ⟨draws, by omega, h.symm⟩
          · rcases hseen s h with ⟨d, hd, he⟩
            exact ⟨d, by omega, he⟩)
      rcases hrec with ⟨l, hl⟩
      refine ⟨l, ?_⟩
      unfold generateKeysGo
      simp only [hgen draws]
      rw [if_neg hmem]
      exact hl

/-- Claim C8 -- `generateKeys(productId, count)` throws the invalid-range
error for every count outside `[1, 10000]`; any batch it returns has
exactly `count` entries with pairwise-distinct key strings; a collision
consumes one fresh draw and retries only that slot (the loop state is
otherwise unchanged), never failing the batch; and whenever the product id
and draws are good (every draw generates, and distinct draws give distinct
key strings) and the fuel covers the count, the batch succeeds. -/
theorem generateKeys_spec (env : CryptoEnv) (productId : String)
    (rng : Nat → List Nat) (count : Int) (fuel : Nat) :
    (count ≤ 0 ∨ 10000 < count →
      generateKeys env productId rng count fuel =
        .error "Count must be between 1 and 10000") ∧
    (∀ l, generateKeys env productId rng count fuel = .ok l →
      l.length = count.toNat ∧ (l.map Prod.fst).Nodup) ∧
    (∀ draws remaining seen acc key f,
      generateKey env productId (rng draws) = .ok key → key.1 ∈ seen →
      generateKeysGo env productId rng (f + 1) draws (remaining + 1) seen acc =
        generateKeysGo env productId rng f (draws + 1) (remaining + 1) seen acc) ∧
    (∀ gk : Nat → String × String,
      (∀ d, generateKey env productId (rng d) = .ok (gk d)) →
      (∀ d d', (gk d).1 = (gk d').1 → d = d') →
      1 ≤ count → count ≤ 10000 → count.toNat ≤ fuel →
      ∃ l, generateKeys env productId rng count fuel = .ok l ∧
        l.length = count.toNat ∧ (l.map Prod.fst).Nodup) := by
  refine ⟨?_, ?_, ?_, ?_⟩
  · intro h
    unfold generateKeys
    rw [if_pos h]
  · intro l hok
    unfold generateKeys at hok
    by_cases hc : count ≤ 0 ∨ 10000 < count
    · rw [if_pos hc] at hok
      cases hok
    · rw [if_neg hc] at hok
      have := generateKeysGo_ok_shape env productId rng fuel 0 count.toNat [] [] l
        rfl List.nodup_nil hok
      simpa using this
  · intro draws remaining seen acc key f hgen hmem
    simp [generateKeysGo, hgen, hmem]
  · intro gk hgen hinj h1 h2 hfuel
    have hc : ¬ (count ≤ 0 ∨ 10000 < count) := by omega
    rcases generateKeysGo_success env productId rng gk hgen hinj count.toNat fuel 0 [] []
      hfuel (by intro s hs; cases hs) with ⟨l, hl⟩
    refine ⟨l, ?_, ?_⟩
    · unfold generateKeys
      rw [if_neg hc]
      exact hl
    · have := generateKeysGo_ok_shape env productId rng fuel 0 count.toNat [] [] l
        rfl List.nodup_nil hl
      simpa using this

/-- The abstract crypto primitives used to instantiate C8. -/
def envC8 : CryptoEnv := ⟨fun _ => "H", fun _ => "s", fun _ _ => true⟩

/-- A deterministic stand-in for the CSPRNG that collides on its first two
draws. -/
def rngC8 : Nat → List Nat := fun d => List.replicate 14 (if d ≤ 1 then 0 else 1)

/-- Witness for C8: the range check fires at count `-5`; with a random
source whose first two draws collide, a batch of 2 still succeeds with 2
distinct keys (the collision retried one slot within fuel 3). -/
theorem generateKeys_spec_witness :
    generateKeys envC8 "ABCD" rngC8 (-5) 3 =
      .error "Count must be between 1 and 10000" ∧
    rngC8 0 = rngC8 1 ∧
    generateKeys envC8 "ABCD" rngC8 2 3 =
      .ok [("ABCD-0000-0000-0000", "s.H"), ("ABCD-0101-0101-0101", "s.H")] ∧
    ([("ABCD-0000-0000-0000", "s.H"), ("ABCD-0101-0101-0101", "s.H")].length =
        (2 : Int).toNat ∧
      (([("ABCD-0000-0000-0000", "s.H"),
         ("ABCD-0101-0101-0101", "s.H")]).map Prod.fst).Nodup) :=
  ⟨(generateKeys_spec envC8 "ABCD" rngC8 (-5) 3).1 (by decide),
   by decide,
   by decide,
   (generateKeys_spec envC8 "ABCD" rngC8 2 3).2.1 _ (by decide)⟩
